import Mathlib

/-!
Shallow embedding, in Lean 4, of the core of an AI code-review service:
the unified-diff line extractor, the context-retrieval merge step, the
code chunker, the deterministic review tools, the bounded ReAct agent
loop, and the indexing orchestrator.  Pure functions of the source are
translated into executable Lean definitions; external collaborators
(tree-sitter parsers, the Python `ast` and `json` modules, the embedding
provider, content hashing) appear as explicit function parameters.
Python exceptions are modelled with `Option`/`Except`.
-/

/- ===== Python string primitives ===== -/

/-- Line-boundary characters recognised by Python `str.splitlines`. -/
def isPyLineBreak (c : Char) : Bool :=
  c == '\n' || c == '\r' || c == Char.ofNat 0x0b || c == Char.ofNat 0x0c ||
  c == Char.ofNat 0x1c || c == Char.ofNat 0x1d || c == Char.ofNat 0x1e ||
  c == Char.ofNat 0x85 || c == Char.ofNat 0x2028 || c == Char.ofNat 0x2029

/-- Worker for `splitlines`: `cur` holds the current line reversed.  A
`"\r\n"` pair counts as a single boundary; a trailing boundary does not
produce a final empty line, matching Python. -/
def splitlinesGo : List Char → List Char → List String
  | [], cur => if cur.isEmpty then [] else [⟨cur.reverse⟩]
  | '\r' :: '\n' :: rest, cur => ⟨cur.reverse⟩ :: splitlinesGo rest []
  | c :: rest, cur =>
    if isPyLineBreak c then ⟨cur.reverse⟩ :: splitlinesGo rest []
    else splitlinesGo rest (c :: cur)

/-- Python `str.splitlines`. -/
def splitlines (s : String) : List String :=
  splitlinesGo s.data []

/-- Whitespace characters stripped by Python `str.strip` (ASCII range;
exotic Unicode space classes are not used by the inputs modelled here). -/
def isPySpace (c : Char) : Bool :=
  c == ' ' || c == '\t' || c == '\n' || c == '\r' ||
  c == Char.ofNat 0x0b || c == Char.ofNat 0x0c

/-- Python `str.strip()`. -/
def pyStrip (s : String) : String :=
  ⟨((s.data.dropWhile isPySpace).reverse.dropWhile isPySpace).reverse⟩

/-- List-level starts-with test (first argument is the candidate lead). -/
def leadsWith : List Char → List Char → Bool
  | [], _ => true
  | _ :: _, [] => false
  | p :: ps, c :: cs => p == c && leadsWith ps cs

/-- Python `s.startswith(pre)`. -/
def pyStartsWith (s pre : String) : Bool :=
  leadsWith pre.data s.data

/-- Python `s.endswith(suf)`. -/
def pyEndsWith (s suf : String) : Bool :=
  leadsWith suf.data.reverse s.data.reverse

/-- Python `str.lower` (the source only lowercases ASCII path text). -/
def pyToLower (s : String) : String :=
  ⟨s.data.map Char.toLower⟩

/-- Python `needle in hay` substring containment. -/
def strContains (hay needle : String) : Bool :=
  (List.range (hay.data.length + 1)).any (fun i => leadsWith needle.data (hay.data.drop i))

/-- Worker for `splitOnChar`: `cur` holds the current field reversed. -/
def splitOnCharGo (sep : Char) : List Char → List Char → List String
  | [], cur => [⟨cur.reverse⟩]
  | x :: xs, cur =>
    if x == sep then ⟨cur.reverse⟩ :: splitOnCharGo sep xs []
    else splitOnCharGo sep xs (x :: cur)

/-- Python `s.split(sep)` for a one-character separator (the only shape
the source uses: `" "` and `","`). -/
def splitOnChar (sep : Char) (s : String) : List String :=
  splitOnCharGo sep s.data []

/-- Python `s.lstrip(c)` for a one-character strip set. -/
def pyLStrip (c : Char) (s : String) : String :=
  ⟨s.data.dropWhile (· == c)⟩

/-- Value of a digit string. -/
def digitsToNat (ds : List Char) : Nat :=
  ds.foldl (fun n c => n * 10 + (c.toNat - 48)) 0

/-- Python `int(s)` on the token shapes reachable here: surrounding
whitespace, an optional single sign, then decimal digits (underscore
digit grouping is not modelled). -/
def pyInt? (s : String) : Option Int :=
  match (pyStrip s).data with
  | [] => none
  | c :: rest =>
    if c == '-' then
      if !rest.isEmpty && rest.all Char.isDigit then some (-(digitsToNat rest : Int)) else none
    else if c == '+' then
      if !rest.isEmpty && rest.all Char.isDigit then some ((digitsToNat rest : Int)) else none
    else
      if (c :: rest).all Char.isDigit then some ((digitsToNat (c :: rest) : Int)) else none

/- ===== app/review/diff_parser.py ===== -/

/-- `_parse_hunk_header` of `app/review/diff_parser.py`: split on single
spaces, take fields 1 and 2, keep the text before the first comma, strip
leading sign characters, and read the integers; any failure is the
`ValueError` branch, modelled as `none`. -/
def _parse_hunk_header (header : String) : Option (Int × Int) :=
  let parts := splitOnChar ' ' header
  match parts[1]?, parts[2]? with
  | some old_part, some new_part =>
    let old_tok := pyLStrip '-' ((splitOnChar ',' old_part).headD "")
    let new_tok := pyLStrip '+' ((splitOnChar ',' new_part).headD "")
    match pyInt? old_tok, pyInt? new_tok with
    | some old_start, some new_start => some (old_start, new_start)
    | _, _ => none
  | _, _ => none

/-- Loop body of `extract_changed_line_numbers`, one source line at a
time, carrying the old-line and new-line counters. -/
def extractLinesGo : List String → Int → Int → Option (List Int)
  | [], _, _ => some []
  | line :: rest, old_line, new_line =>
    if pyStartsWith line "@@" then
      match _parse_hunk_header line with
      | none => none
      | some (o, n) => extractLinesGo rest o n
    else if pyStartsWith line "+" && !pyStartsWith line "+++" then
      (extractLinesGo rest old_line (new_line + 1)).map (fun tl => new_line :: tl)
    else if pyStartsWith line "-" && !pyStartsWith line "---" then
      extractLinesGo rest (old_line + 1) new_line
    else if pyStartsWith line " " then
      extractLinesGo rest (old_line + 1) (new_line + 1)
    else
      extractLinesGo rest old_line new_line

/-- `extract_changed_line_numbers` of `app/review/diff_parser.py`; a
malformed hunk header raises `ValueError`, modelled as `none`. -/
def extract_changed_line_numbers (diff : String) : Option (List Int) :=
  extractLinesGo (splitlines diff) 0 0

/-- The two diff-walk counters, as the spec describes them. -/
structure DiffCounters where
  oldLine : Int
  newLine : Int

/-- The diff-walk of spec §4.4 step 1, written from the spec's words: on
each `@@` marker both counters are reset from the header's declared
starting line numbers; a line prefixed `+` (and not `+++`) is an added
line recorded at the current new-line counter, which then increments; a
line prefixed `-` (and not `---`) increments only the old counter; a
context line (leading space) increments both. -/
def specDiffWalk : List String → DiffCounters → Option (List Int)
  | [], _ => some []
  | line :: rest, st =>
    if pyStartsWith line "@@" then
      match _parse_hunk_header line with
      | none => none
      | some (oldStart, newStart) => specDiffWalk rest ⟨oldStart, newStart⟩
    else if pyStartsWith line "+" && !pyStartsWith line "+++" then
      (specDiffWalk rest ⟨st.oldLine, st.newLine + 1⟩).map (fun tl => st.newLine :: tl)
    else if pyStartsWith line "-" && !pyStartsWith line "---" then
      specDiffWalk rest ⟨st.oldLine + 1, st.newLine⟩
    else if pyStartsWith line " " then
      specDiffWalk rest ⟨st.oldLine + 1, st.newLine + 1⟩
    else
      specDiffWalk rest st

theorem extractLinesGo_eq_specDiffWalk (lines : List String) :
    ∀ o n : Int, extractLinesGo lines o n = specDiffWalk lines ⟨o, n⟩ := by
  induction lines with
  | nil => intro o n; rfl
  | cons line rest ih =>
    intro o n
    simp only [extractLinesGo, specDiffWalk]
    split
    · split <;> simp [ih]
    · split <;> simp [ih]

/-- C1: `extract_changed_line_numbers` walks the diff with an old-line
and a new-line counter, both reset from each `@@` hunk header's declared
starting line numbers; a line starting `+` (not `+++`) is recorded at
the current new-line counter and increments it, a `-` line (not `---`)
increments only the old counter, and a leading-space line increments
both; and the sample diff yields exactly the added lines `[2, 3]`. -/
theorem extract_changed_line_numbers_correct :
    (∀ diff : String,
        extract_changed_line_numbers diff = specDiffWalk (splitlines diff) ⟨0, 0⟩) ∧
    extract_changed_line_numbers
        "@@ -1,3 +1,4 @@\n line1\n-line2\n+line2_new\n+line3_new\n line4" = some [2, 3] := by
  constructor
  · intro diff
    exact extractLinesGo_eq_specDiffWalk (splitlines diff) 0 0
  · rfl

/- ===== app/storage/models.py and app/review/context_retrieval.py ===== -/

/-- `CodeChunk` of `app/storage/models.py` (the `embedding` column is
carried separately, paired with the chunk, where it matters). -/
structure CodeChunk where
  repo_id : String
  path : String
  symbol_name : String
  symbol_type : String
  start_line : Int
  end_line : Int
  content : String
  checksum : String
  deriving DecidableEq

/-- The dedupe identity key of `_merge_chunks`:
`(path, symbol_name, start_line, end_line)`. -/
def chunkKey (c : CodeChunk) : String × String × Int × Int :=
  (c.path, c.symbol_name, c.start_line, c.end_line)

/-- Loop of `_merge_chunks` of `app/review/context_retrieval.py`; the
Python `seen` set is modelled by the list of keys added so far. -/
def mergeChunksGo (seen : List (String × String × Int × Int)) :
    List CodeChunk → List CodeChunk
  | [] => []
  | c :: rest =>
    if chunkKey c ∈ seen then mergeChunksGo seen rest
    else c :: mergeChunksGo (chunkKey c :: seen) rest

/-- `_merge_chunks`: iterate over `line_chunks + similar_chunks`,
keeping a chunk only when its key has not been seen. -/
def _merge_chunks (line_chunks similar_chunks : List CodeChunk) : List CodeChunk :=
  mergeChunksGo [] (line_chunks ++ similar_chunks)

/-- Drop every chunk whose key equals `k`. -/
def removeKey (k : String × String × Int × Int) : List CodeChunk → List CodeChunk
  | [] => []
  | c :: rest => if chunkKey c = k then removeKey k rest else c :: removeKey k rest

theorem removeKey_length_le (k : String × String × Int × Int) (l : List CodeChunk) :
    (removeKey k l).length ≤ l.length := by
  induction l with
  | nil => simp [removeKey]
  | cons c rest ih =>
    simp only [removeKey]
    split
    · exact Nat.le_succ_of_le ih
    · simpa using ih

/-- Spec-side dedup, written from the spec's words: keep the first
occurrence of each identity key and drop all later chunks carrying the
same key. -/
def dedupByKeyFirst : List CodeChunk → List CodeChunk
  | [] => []
  | c :: rest => c :: dedupByKeyFirst (removeKey (chunkKey c) rest)
termination_by l => l.length
decreasing_by
  simp only [List.length_cons]
  exact Nat.lt_succ_of_le (removeKey_length_le _ _)

/-- Drop every chunk whose key is in `seen`. -/
def removeKeys (seen : List (String × String × Int × Int)) :
    List CodeChunk → List CodeChunk
  | [] => []
  | c :: rest =>
    if chunkKey c ∈ seen then removeKeys seen rest else c :: removeKeys seen rest

theorem removeKeys_nil (l : List CodeChunk) : removeKeys [] l = l := by
  induction l with
  | nil => rfl
  | cons c rest ih => simp [removeKeys, ih]

theorem removeKeys_cons (k : String × String × Int × Int)
    (seen : List (String × String × Int × Int)) (l : List CodeChunk) :
    removeKeys (k :: seen) l = removeKey k (removeKeys seen l) := by
  induction l with
  | nil => rfl
  | cons c rest ih =>
    by_cases hseen : chunkKey c ∈ seen
    · have hmem : chunkKey c ∈ k :: seen := List.mem_cons_of_mem _ hseen
      simp [removeKeys, removeKey, hseen, hmem, ih]
    · by_cases hk : chunkKey c = k
      · have hmem : chunkKey c ∈ k :: seen := by simp [hk]
        have hks : k ∉ seen := hk ▸ hseen
        simp [removeKeys, removeKey, hseen, hmem, hk, hks, ih]
      · have hmem : chunkKey c ∉ k :: seen := by simp [hk, hseen]
        simp [removeKeys, removeKey, hseen, hmem, hk, ih]

theorem mergeChunksGo_eq_dedup (l : List CodeChunk) :
    ∀ seen, mergeChunksGo seen l = dedupByKeyFirst (removeKeys seen l) := by
  induction l with
  | nil => intro seen; simp [mergeChunksGo, removeKeys, dedupByKeyFirst]
  | cons c rest ih =>
    intro seen
    by_cases hseen : chunkKey c ∈ seen
    · simp [mergeChunksGo, removeKeys, hseen, ih]
    · have h1 : mergeChunksGo seen (c :: rest) =
          c :: mergeChunksGo (chunkKey c :: seen) rest := by
        simp [mergeChunksGo, hseen]
      have h2 : removeKeys seen (c :: rest) = c :: removeKeys seen rest := by
        simp [removeKeys, hseen]
      rw [h1, h2, ih, removeKeys_cons]
      simp [dedupByKeyFirst]

theorem mergeGo_filter_mem (k : String × String × Int × Int) (l : List CodeChunk) :
    ∀ seen, k ∈ seen →
      (mergeChunksGo seen l).filter (fun c => decide (chunkKey c = k)) = [] := by
  induction l with
  | nil => intro seen _; rfl
  | cons c rest ih =>
    intro seen hk
    by_cases hseen : chunkKey c ∈ seen
    · simpa [mergeChunksGo, hseen] using ih seen hk
    · have hck : ¬ chunkKey c = k := fun h => hseen (h ▸ hk)
      simp only [mergeChunksGo, if_neg hseen]
      rw [List.filter_cons_of_neg (by simp [hck])]
      exact ih (chunkKey c :: seen) (List.mem_cons_of_mem _ hk)

theorem mergeGo_filter (k : String × String × Int × Int) (l : List CodeChunk) :
    ∀ seen, k ∉ seen →
      (mergeChunksGo seen l).filter (fun c => decide (chunkKey c = k)) =
        (match l.find? (fun c => decide (chunkKey c = k)) with
          | some c => [c]
          | none => []) := by
  induction l with
  | nil => intro seen _; rfl
  | cons c rest ih =>
    intro seen hk
    by_cases hck : chunkKey c = k
    · have hseen : chunkKey c ∉ seen := hck.symm ▸ hk
      rw [List.find?_cons_of_pos _ (by simp [hck])]
      simp only [mergeChunksGo, if_neg hseen]
      rw [List.filter_cons_of_pos (by simp [hck])]
      rw [mergeGo_filter_mem k rest (chunkKey c :: seen) (by simp [hck])]
    · rw [List.find?_cons_of_neg _ (by simp [hck])]
      by_cases hseen : chunkKey c ∈ seen
      · simp only [mergeChunksGo, if_pos hseen]
        exact ih seen hk
      · simp only [mergeChunksGo, if_neg hseen]
        rw [List.filter_cons_of_neg (by simp [hck])]
        refine ih (chunkKey c :: seen) ?_
        simp only [List.mem_cons, not_or]
        exact ⟨fun h => hck h.symm, hk⟩

theorem find?_append_left {α : Type} (p : α → Bool) (l₁ l₂ : List α) (a : α)
    (h : l₁.find? p = some a) : (l₁ ++ l₂).find? p = some a := by
  induction l₁ with
  | nil => simp [List.find?] at h
  | cons x xs ih =>
    by_cases hx : p x
    · rw [List.find?_cons_of_pos _ hx] at h
      rw [List.cons_append, List.find?_cons_of_pos _ hx]
      exact h
    · rw [List.find?_cons_of_neg _ hx] at h
      rw [List.cons_append, List.find?_cons_of_neg _ hx]
      exact ih h

/-- C2: the merge step concatenates the line-range results with the
similarity results and deduplicates by `(path, symbol_name, start_line,
end_line)`, keeping the first occurrence of each key; so when a key
occurs in both inputs the merged output carries exactly one chunk with
that key, namely the first line-range chunk with that key. -/
theorem merge_chunks_dedup (lc sc : List CodeChunk) (k : String × String × Int × Int)
    (c0 : CodeChunk)
    (h1 : lc.find? (fun c => decide (chunkKey c = k)) = some c0)
    (_h2 : ∃ c ∈ sc, chunkKey c = k) :
    _merge_chunks lc sc = dedupByKeyFirst (lc ++ sc) ∧
    (_merge_chunks lc sc).filter (fun c => decide (chunkKey c = k)) = [c0] := by
  constructor
  · rw [_merge_chunks, mergeChunksGo_eq_dedup, removeKeys_nil]
  · rw [_merge_chunks, mergeGo_filter k _ [] (by simp),
      find?_append_left _ _ _ _ h1]

def mergeChunkA : CodeChunk :=
  ⟨"r", "a.py", "f", "function_definition", 1, 5, "def f: new", "ck1"⟩

def mergeChunkA2 : CodeChunk :=
  ⟨"r", "a.py", "f", "function_definition", 1, 5, "def f: old", "ck2"⟩

def mergeChunkB : CodeChunk :=
  ⟨"r", "b.py", "g", "function_definition", 2, 9, "def g", "ck3"⟩

theorem merge_chunks_dedup_witness :
    _merge_chunks [mergeChunkA] [mergeChunkA2, mergeChunkB] =
      dedupByKeyFirst ([mergeChunkA] ++ [mergeChunkA2, mergeChunkB]) ∧
    (_merge_chunks [mergeChunkA] [mergeChunkA2, mergeChunkB]).filter
      (fun c => decide (chunkKey c = ("a.py", "f", 1, 5))) = [mergeChunkA] :=
  merge_chunks_dedup [mergeChunkA] [mergeChunkA2, mergeChunkB] ("a.py", "f", 1, 5)
    mergeChunkA (by decide) ⟨mergeChunkA2, by simp, by decide⟩

/- ===== app/review/context.py and app/indexing/chunker.py ===== -/

/-- `infer_language_from_path` of `app/review/context.py`. -/
def infer_language_from_path (path : String) : String :=
  let lowered := pyToLower path
  if pyEndsWith lowered ".py" then "python"
  else if pyEndsWith lowered ".ts" || pyEndsWith lowered ".tsx" then "typescript"
  else if pyEndsWith lowered ".js" || pyEndsWith lowered ".jsx" then "javascript"
  else if pyEndsWith lowered ".go" then "go"
  else if pyEndsWith lowered ".java" then "java"
  else if pyEndsWith lowered ".rb" then "ruby"
  else if pyEndsWith lowered ".php" then "php"
  else if pyEndsWith lowered ".rs" then "rust"
  else if pyEndsWith lowered ".sql" then "sql"
  else "unknown"

/-- Loop of `_build_import_chunk`: Python `enumerate(lines, start=1)`,
with the source's two separate keyword tests per line (both can fire
only if a stripped line started with two different keywords at once,
which is impossible; the disjointness is proved below). -/
def importLinesGo : Nat → List String → List (Nat × String)
  | _, [] => []
  | idx, line :: rest =>
    ((if pyStartsWith (pyStrip line) "import " || pyStartsWith (pyStrip line) "from "
        then [(idx, line)] else []) ++
      (if pyStartsWith (pyStrip line) "export " then [(idx, line)] else [])) ++
      importLinesGo (idx + 1) rest

/-- `_build_import_chunk` of `app/indexing/chunker.py`; the content hash
is an explicit parameter `sha` (the source calls `hashlib.sha256`). -/
def _build_import_chunk (sha : String → String) (repo_id path : String)
    (lines : List String) : Option CodeChunk :=
  match importLinesGo 1 lines with
  | [] => none
  | il@((first_idx, _) :: _) =>
    let content := String.intercalate "\n" (il.map Prod.snd)
    some ⟨repo_id, path, "__imports__", "module_imports",
      (first_idx : Int), (((il.getLast?.map Prod.fst).getD first_idx : Nat) : Int),
      content, sha content⟩

/-- A line whose stripped text starts with an import-like or export-like
keyword. -/
def isImportExportLine (line : String) : Bool :=
  pyStartsWith (pyStrip line) "import " || pyStartsWith (pyStrip line) "from " ||
    pyStartsWith (pyStrip line) "export "

/-- Spec-side import chunk (spec §4.1 step 2): the matched lines are the
lines whose trimmed text starts with an import-like or export-like
keyword, regardless of contiguity; the chunk content is exactly those
lines joined in original order, spanning the 1-indexed positions of the
first and last matched lines; no chunk when nothing matches. -/
def importChunkSpec (sha : String → String) (repo_id path : String)
    (lines : List String) : Option CodeChunk :=
  let matched := (List.enumFrom 1 lines).filter (fun q => isImportExportLine q.2)
  match matched.head?, matched.getLast? with
  | some first, some last =>
    let content := String.intercalate "\n" (lines.filter (fun l => isImportExportLine l))
    some ⟨repo_id, path, "__imports__", "module_imports",
      (first.1 : Int), (last.1 : Int), content, sha content⟩
  | _, _ => none

/-- `_build_file_chunk` of `app/indexing/chunker.py`. -/
def _build_file_chunk (sha : String → String) (repo_id path content : String) : CodeChunk :=
  let line_count := (splitlines content).length
  ⟨repo_id, path, "__file__", "file", 1,
    (if line_count > 0 then (line_count : Int) else 1), content, sha content⟩

/-- A tree-sitter syntax node, as far as the chunker inspects it:
grammar `type`, 0-based start/end rows, the text of the `name` field
child when present, and the child nodes in document order. -/
structure TSNode where
  type : String
  startRow : Nat
  endRow : Nat
  nameField : Option String
  children : List TSNode

/-- `_node_types_for_language` of `app/indexing/chunker.py`. -/
def _node_types_for_language (language : String) : List String :=
  if language = "python" then ["function_definition", "class_definition"]
  else if language = "javascript" ∨ language = "typescript" then
    ["function_declaration", "class_declaration", "method_definition"]
  else if language = "go" then ["function_declaration", "method_declaration", "type_spec"]
  else if language = "java" then ["method_declaration", "class_declaration"]
  else []

mutual
/-- Preorder walk of `_collect_symbol_nodes` (the source's explicit
stack, popping a node and pushing its children reversed, visits nodes
in document preorder). -/
def walkCollect (targets : List String) : TSNode → List TSNode
  | ⟨t, sr, er, nm, cs⟩ =>
    (if t ∈ targets then [⟨t, sr, er, nm, cs⟩] else []) ++ walkCollectList targets cs

def walkCollectList (targets : List String) : List TSNode → List TSNode
  | [] => []
  | c :: cs => walkCollect targets c ++ walkCollectList targets cs
end

/-- `_collect_symbol_nodes` of `app/indexing/chunker.py`. -/
def _collect_symbol_nodes (language : String) (root : TSNode) : List TSNode :=
  walkCollect (_node_types_for_language language) root

/-- `_node_symbol_name`: the `name` field child's text, else
`"anonymous"`. -/
def _node_symbol_name (node : TSNode) : String :=
  match node.nameField with
  | none => "anonymous"
  | some t => t

/-- `_node_to_chunk` of `app/indexing/chunker.py`. -/
def _node_to_chunk (sha : String → String) (repo_id path : String) (node : TSNode)
    (lines : List String) : Option CodeChunk :=
  let start_line : Int := (node.startRow : Int) + 1
  let end_line : Int := (node.endRow : Int) + 1
  if start_line < 1 ∨ end_line < start_line then none
  else
    let content := String.intercalate "\n"
      ((lines.drop node.startRow).take (node.endRow + 1 - node.startRow))
    some ⟨repo_id, path, _node_symbol_name node, node.type,
      start_line, end_line, content, sha content⟩

/-- The import chunk as a zero- or one-element list (the source appends
it to `chunks` when it is not `None`). -/
def importChunkList (sha : String → String) (repo_id path : String)
    (lines : List String) : List CodeChunk :=
  match _build_import_chunk sha repo_id path lines with
  | some c => [c]
  | none => []

/-- `chunk_file` of `app/indexing/chunker.py`.  The tree-sitter parser
registry (`_try_get_parser`, which returns `None` when
`tree_sitter_language_pack.get_parser` raises) is the explicit
parameter `getParser`; a parser is a function from the file content to
the root node of its parse tree. -/
def chunk_file (sha : String → String) (getParser : String → Option (String → TSNode))
    (repo_id path content : String) : List CodeChunk :=
  match getParser (infer_language_from_path path) with
  | none =>
    importChunkList sha repo_id path (splitlines content) ++
      [_build_file_chunk sha repo_id path content]
  | some parse =>
    importChunkList sha repo_id path (splitlines content) ++
      ((_collect_symbol_nodes (infer_language_from_path path) (parse content)).filterMap
        (fun n => _node_to_chunk sha repo_id path n (splitlines content))) ++
      (if (_collect_symbol_nodes (infer_language_from_path path) (parse content)).isEmpty
        then [_build_file_chunk sha repo_id path content] else [])

theorem leadsWith_cons_head {p : Char} {ps : List Char} {cs : List Char}
    (h : leadsWith (p :: ps) cs = true) : cs.head? = some p := by
  cases cs with
  | nil => simp [leadsWith] at h
  | cons c cs' =>
    simp only [leadsWith, Bool.and_eq_true, beq_iff_eq] at h
    simp [h.1]

theorem pyStartsWith_head (s pre : String) (c : Char) (rest : List Char)
    (hpre : pre.data = c :: rest) (h : pyStartsWith s pre = true) :
    s.data.head? = some c := by
  unfold pyStartsWith at h
  rw [hpre] at h
  exact leadsWith_cons_head h

theorem importExport_first_disjoint (s : String)
    (h : pyStartsWith s "import " = true ∨ pyStartsWith s "from " = true) :
    pyStartsWith s "export " = false := by
  cases hexp : pyStartsWith s "export " with
  | false => rfl
  | true =>
    have he : s.data.head? = some 'e' := pyStartsWith_head s "export " 'e' _ rfl hexp
    cases h with
    | inl h1 =>
      have hi : s.data.head? = some 'i' := pyStartsWith_head s "import " 'i' _ rfl h1
      rw [hi] at he
      exact absurd he (by decide)
    | inr h2 =>
      have hf : s.data.head? = some 'f' := pyStartsWith_head s "from " 'f' _ rfl h2
      rw [hf] at he
      exact absurd he (by decide)

theorem importLine_yield (idx : Nat) (line : String) :
    ((if pyStartsWith (pyStrip line) "import " || pyStartsWith (pyStrip line) "from "
        then [(idx, line)] else ([] : List (Nat × String))) ++
      (if pyStartsWith (pyStrip line) "export " then [(idx, line)] else [])) =
      (if isImportExportLine line then [(idx, line)] else []) := by
  unfold isImportExportLine
  cases hi : pyStartsWith (pyStrip line) "import " with
  | true =>
    have h2 : pyStartsWith (pyStrip line) "export " = false :=
      importExport_first_disjoint _ (Or.inl hi)
    simp [hi, h2]
  | false =>
    cases hf : pyStartsWith (pyStrip line) "from " with
    | true =>
      have h2 : pyStartsWith (pyStrip line) "export " = false :=
        importExport_first_disjoint _ (Or.inr hf)
      simp [hi, hf, h2]
    | false => simp [hi, hf]

theorem importLinesGo_eq (lines : List String) : ∀ k,
    importLinesGo k lines =
      (List.enumFrom k lines).filter (fun q => isImportExportLine q.2) := by
  induction lines with
  | nil => intro k; rfl
  | cons line rest ih =>
    intro k
    simp only [importLinesGo, List.enumFrom, List.filter_cons]
    rw [importLine_yield]
    by_cases h : isImportExportLine line <;> simp [h, ih]

theorem enumFrom_filter_map_snd (p : String → Bool) (lines : List String) : ∀ k,
    (((List.enumFrom k lines).filter (fun q => p q.2)).map Prod.snd) = lines.filter p := by
  induction lines with
  | nil => intro k; rfl
  | cons line rest ih =>
    intro k
    by_cases h : p line <;> simp [List.enumFrom, List.filter_cons, h, ih]

/-- C6: the import-block step collects every line whose trimmed text
starts with an import-like or export-like keyword, regardless of
contiguity; when at least one matches it emits exactly one chunk whose
content is the matched lines joined in original order (gap lines
excluded), spanning the 1-indexed positions of the first and last
matched lines, named `__imports__` of type `module_imports`; when none
matches it emits nothing. -/
theorem build_import_chunk_eq_spec (sha : String → String) (repo_id path : String)
    (lines : List String) :
    _build_import_chunk sha repo_id path lines = importChunkSpec sha repo_id path lines := by
  unfold _build_import_chunk importChunkSpec
  rw [importLinesGo_eq lines 1]
  cases hm : (List.enumFrom 1 lines).filter (fun q => isImportExportLine q.2) with
  | nil => rfl
  | cons first rest =>
    obtain ⟨fidx, fline⟩ := first
    have hne : ((fidx, fline) :: rest : List (Nat × String)) ≠ [] := by simp
    have hlast := List.getLast?_eq_getLast ((fidx, fline) :: rest) hne
    have hc : ((((fidx, fline) :: rest).map Prod.snd)) =
        lines.filter (fun l => isImportExportLine l) := by
      rw [← hm]
      exact enumFrom_filter_map_snd _ lines 1
    simp [hlast, hc]

theorem if_pos_count_max (n : Nat) :
    (if n > 0 then (n : Int) else 1) = max (n : Int) 1 := by
  by_cases h : n > 0
  · rw [if_pos h, max_eq_left (by exact_mod_cast h)]
  · have h0 : n = 0 := Nat.eq_zero_of_not_pos h
    subst h0
    simp

/-- C9: an empty file yields only the fallback whole-file chunk and
no import chunk; and whenever the fallback chunk is produced (no parser
for the language, or the parse yields zero symbol nodes) it carries
`symbol_name = "__file__"`, `symbol_type = "file"`, `start_line = 1`
and `end_line` equal to the file's line count with a minimum of 1. -/
theorem chunk_file_fallback (sha : String → String)
    (getParser : String → Option (String → TSNode)) (repo_id path : String)
    (hempty : ∀ parse, getParser (infer_language_from_path path) = some parse →
      _collect_symbol_nodes (infer_language_from_path path) (parse "") = []) :
    chunk_file sha getParser repo_id path "" =
      [⟨repo_id, path, "__file__", "file", 1, 1, "", sha ""⟩] ∧
    (∀ content : String,
      (getParser (infer_language_from_path path) = none ∨
        ∃ parse, getParser (infer_language_from_path path) = some parse ∧
          _collect_symbol_nodes (infer_language_from_path path) (parse content) = []) →
      ∃ c : CodeChunk,
        (chunk_file sha getParser repo_id path content).getLast? = some c ∧
        c.symbol_name = "__file__" ∧ c.symbol_type = "file" ∧ c.start_line = 1 ∧
        c.end_line = max ((splitlines content).length : Int) 1) := by
  constructor
  · unfold chunk_file
    cases hp : getParser (infer_language_from_path path) with
    | none => rfl
    | some parse =>
      have h0 := hempty parse hp
      simp only [hp]
      rw [h0]
      rfl
  · intro content hcase
    refine ⟨_build_file_chunk sha repo_id path content, ?_, rfl, rfl, rfl, ?_⟩
    · unfold chunk_file
      rcases hcase with hp | ⟨parse, hp, h0⟩
      · rw [hp]
        exact List.getLast?_concat _
      · simp only [hp]
        rw [h0]
        show (importChunkList sha repo_id path (splitlines content) ++ [] ++
          [_build_file_chunk sha repo_id path content]).getLast? =
          some (_build_file_chunk sha repo_id path content)
        exact List.getLast?_concat _
    · exact if_pos_count_max _

theorem chunk_file_fallback_witness :
    chunk_file (fun _ => "h") (fun _ => none) "r" "a.py" "" =
      [⟨"r", "a.py", "__file__", "file", 1, 1, "", "h"⟩] ∧
    (∀ content : String,
      ((fun _ => (none : Option (String → TSNode))) (infer_language_from_path "a.py") = none ∨
        ∃ parse, (fun _ => (none : Option (String → TSNode)))
            (infer_language_from_path "a.py") = some parse ∧
          _collect_symbol_nodes (infer_language_from_path "a.py") (parse content) = []) →
      ∃ c : CodeChunk,
        (chunk_file (fun _ => "h") (fun _ => none) "r" "a.py" content).getLast? = some c ∧
        c.symbol_name = "__file__" ∧ c.symbol_type = "file" ∧ c.start_line = 1 ∧
        c.end_line = max ((splitlines content).length : Int) 1) :=
  chunk_file_fallback (fun _ => "h") (fun _ => none) "r" "a.py"
    (fun _ h => Option.noConfusion h)

/-- C10: for every input, including empty content and unknown
languages, `chunk_file` returns a non-empty chunk list (given the
tree-sitter guarantee that a node's end row is not before its start
row), so the orchestrator's embedding step, which rejects an empty
content list, can always run. -/
theorem chunk_file_nonempty (sha : String → String)
    (getParser : String → Option (String → TSNode)) (repo_id path content : String)
    (hrows : ∀ parse, getParser (infer_language_from_path path) = some parse →
      ∀ n ∈ _collect_symbol_nodes (infer_language_from_path path) (parse content),
        n.startRow ≤ n.endRow) :
    chunk_file sha getParser repo_id path content ≠ [] := by
  unfold chunk_file
  cases hp : getParser (infer_language_from_path path) with
  | none =>
    intro h
    rcases List.append_eq_nil.mp h with ⟨-, h2⟩
    exact List.cons_ne_nil _ _ h2
  | some parse =>
    cases hn : _collect_symbol_nodes (infer_language_from_path path) (parse content) with
    | nil =>
      simp only [hp]
      rw [hn]
      intro h
      rcases List.append_eq_nil.mp h with ⟨-, h2⟩
      revert h2
      show (if (List.isEmpty []) then [_build_file_chunk sha repo_id path content] else []) =
        [] → False
      intro h2
      exact List.cons_ne_nil _ _ h2
    | cons n rest =>
      simp only [hp]
      rw [hn]
      have hle : n.startRow ≤ n.endRow :=
        hrows parse hp n (by rw [hn]; exact List.mem_cons_self _ _)
      have hcond : ¬ (((n.startRow : Int) + 1 < 1) ∨
          ((n.endRow : Int) + 1 < (n.startRow : Int) + 1)) := by
        push_neg
        constructor <;> omega
      have hsome : _node_to_chunk sha repo_id path n (splitlines content) =
          some ⟨repo_id, path, _node_symbol_name n, n.type,
            (n.startRow : Int) + 1, (n.endRow : Int) + 1,
            String.intercalate "\n" (((splitlines content).drop n.startRow).take
              (n.endRow + 1 - n.startRow)),
            sha (String.intercalate "\n" (((splitlines content).drop n.startRow).take
              (n.endRow + 1 - n.startRow)))⟩ := by
        unfold _node_to_chunk
        rw [if_neg hcond]
      intro h
      rcases List.append_eq_nil.mp h with ⟨h1, -⟩
      rcases List.append_eq_nil.mp h1 with ⟨-, h2⟩
      rw [List.filterMap_cons, hsome] at h2
      exact List.cons_ne_nil _ _ h2

theorem chunk_file_nonempty_witness :
    chunk_file (fun _ => "h") (fun _ => none) "r" "notes.txt" "" ≠ [] :=
  chunk_file_nonempty (fun _ => "h") (fun _ => none) "r" "notes.txt" ""
    (fun _ h => Option.noConfusion h)

/- ===== app/agent/schemas.py, app/agent/tools/ ===== -/

/-- `ToolContext` of `app/agent/schemas.py`: the read-only map from
path to unified diff text, modelled as an association list (a Python
dict has no duplicate keys; lookup takes the first binding). -/
structure ToolContext where
  diff_by_path : List (String × String)

/-- Python `ctx.diff_by_path[path]` / `path in ctx.diff_by_path`. -/
def lookupDiff (ctx : ToolContext) (path : String) : Option String :=
  (ctx.diff_by_path.find? (fun q => q.1 == path)).map Prod.snd

/-- `GetDiffChunkArgs` of `app/agent/schemas.py`. -/
structure GetDiffChunkArgs where
  path : String
  max_lines : Int

/-- `FindRiskyPatternArgs` of `app/agent/schemas.py`. -/
structure FindRiskyPatternArgs where
  path : String
  patterns : List String

/-- `CalcPythonComplexityArgs` of `app/agent/schemas.py`. -/
structure CalcPythonComplexityArgs where
  path : String

/-- Python exceptions raised by the agent tools. -/
inductive ToolError
  | keyError (msg : String)
  | valueError (msg : String)
  | syntaxError (msg : String)

/-- Kinds of Python AST nodes the complexity tool distinguishes: the
branch-node classes named in `calc_python_complexity` (`ast.If`,
`ast.For`, `ast.AsyncFor`, `ast.While`, `ast.Try`, `ast.With`,
`ast.AsyncWith`, `ast.Match`, `ast.BoolOp`) and everything else. -/
inductive PyNodeKind
  | ifStmt | forStmt | asyncFor | whileStmt | tryStmt | withStmt
  | asyncWith | matchStmt | boolOp | other

/-- A Python AST as produced by `ast.parse`, as far as the tool
inspects it: `ast.walk` visits every node exactly once, so only the
kind and the child list of each node matter. -/
inductive PyAst
  | node (kind : PyNodeKind) (children : List PyAst)

/-- Membership in the `branch_nodes` tuple of `calc_python_complexity`. -/
def isBranchKind : PyNodeKind → Bool
  | .other => false
  | _ => true

mutual
/-- Number of branch nodes in the whole tree (the `ast.walk` loop). -/
def countBranchNodes : PyAst → Nat
  | .node k cs => (if isBranchKind k then 1 else 0) + countBranchNodesList cs

def countBranchNodesList : List PyAst → Nat
  | [] => 0
  | t :: ts => countBranchNodes t + countBranchNodesList ts
end

/-- `_extract_added_python_lines_from_diff` of
`app/agent/tools/complexity.py`: skip `+++ `, `--- ` and `@@` metadata
lines, keep lines starting `+` but not `++`, drop the leading `+`, and
join with newlines. -/
def _extract_added_python_lines_from_diff (diff : String) : String :=
  String.intercalate "\n" ((splitlines diff).filterMap (fun line =>
    if pyStartsWith line "+++ " || pyStartsWith line "--- " || pyStartsWith line "@@" then
      none
    else if pyStartsWith line "+" && !pyStartsWith line "++" then
      some ⟨line.data.drop 1⟩
    else none))

/-- `calc_python_complexity` of `app/agent/tools/complexity.py`; the
Python parser (`ast.parse`, raising `SyntaxError` on failure) is the
explicit parameter `pyParse`.  A blank added-line fragment returns
complexity 0 before any parse. -/
def calc_python_complexity (pyParse : String → Except String PyAst)
    (args : CalcPythonComplexityArgs) (ctx : ToolContext) : Except ToolError Nat :=
  match lookupDiff ctx args.path with
  | none => .error (.keyError ("diff not found for path: " ++ args.path))
  | some diff =>
    if pyStrip (_extract_added_python_lines_from_diff diff) = "" then .ok 0
    else
      match pyParse (_extract_added_python_lines_from_diff diff) with
      | .error e => .error (.syntaxError e)
      | .ok tree => .ok (1 + countBranchNodes tree)

/-- Pattern loop of `find_risky_pattern`: an empty pattern raises
`ValueError`; a non-empty pattern contained in the diff joins the
hits. -/
def findHitsGo (diff : String) : List String → Except ToolError (List String)
  | [] => .ok []
  | p :: rest =>
    if p = "" then .error (.valueError "pattern must be non-empty")
    else if strContains diff p then (findHitsGo diff rest).map (fun hs => p :: hs)
    else findHitsGo diff rest

/-- `find_risky_pattern` of `app/agent/tools/security.py`. -/
def find_risky_pattern (args : FindRiskyPatternArgs) (ctx : ToolContext) :
    Except ToolError (List String) :=
  match lookupDiff ctx args.path with
  | none => .error (.keyError ("diff not found for path: " ++ args.path))
  | some diff => findHitsGo diff args.patterns

theorem findHitsGo_error (diff : String) (l : List String) (h : "" ∈ l) :
    findHitsGo diff l = .error (.valueError "pattern must be non-empty") := by
  induction l with
  | nil => cases h
  | cons p rest ih =>
    by_cases hp : p = ""
    · simp [findHitsGo, hp]
    · have hmem : "" ∈ rest := by
        cases List.mem_cons.mp h with
        | inl he => exact absurd he.symm hp
        | inr hm => exact hm
      simp only [findHitsGo, if_neg hp]
      cases hc : strContains diff p
      · simp only [Bool.false_eq_true, if_neg]
        exact ih hmem
      · simp only [if_pos]
        rw [ih hmem]
        rfl

theorem findHitsGo_ok (diff : String) (l : List String) (h : "" ∉ l) :
    findHitsGo diff l = .ok (l.filter (fun p => strContains diff p)) := by
  induction l with
  | nil => rfl
  | cons p rest ih =>
    have hp : ¬ p = "" := fun e => h (by simp [e])
    have hrest : "" ∉ rest := fun m => h (List.mem_cons_of_mem _ m)
    cases hc : strContains diff p with
    | false =>
      have hf : (p :: rest).filter (fun q => strContains diff q) =
          rest.filter (fun q => strContains diff q) :=
        List.filter_cons_of_neg (by simp [hc])
      rw [hf]
      simp only [findHitsGo, if_neg hp, hc]
      rw [if_neg (by simp)]
      exact ih hrest
    | true =>
      have hf : (p :: rest).filter (fun q => strContains diff q) =
          p :: rest.filter (fun q => strContains diff q) :=
        List.filter_cons_of_pos (by simp [hc])
      rw [hf]
      simp only [findHitsGo, if_neg hp, hc]
      rw [if_pos trivial]
      rw [ih hrest]
      rfl

/-- C7: `find_risky_pattern` on a path absent from the diff map fails
with the not-found `KeyError`; on a present path it fails with the
empty-pattern `ValueError` whenever the pattern list contains an empty
string (no accumulated matches survive), and otherwise returns exactly
the subsequence of the input patterns occurring as literal substrings
of the diff, in input order. -/
theorem find_risky_pattern_correct (ctx : ToolContext) (args : FindRiskyPatternArgs) :
    (lookupDiff ctx args.path = none →
      find_risky_pattern args ctx =
        .error (.keyError ("diff not found for path: " ++ args.path))) ∧
    (∀ diff, lookupDiff ctx args.path = some diff →
      ("" ∈ args.patterns →
        find_risky_pattern args ctx = .error (.valueError "pattern must be non-empty")) ∧
      ("" ∉ args.patterns →
        find_risky_pattern args ctx =
          .ok (args.patterns.filter (fun p => strContains diff p)))) := by
  constructor
  · intro h
    simp only [find_risky_pattern, h]
  · intro diff h
    constructor
    · intro hmem
      simp only [find_risky_pattern, h]
      exact findHitsGo_error diff _ hmem
    · intro hmem
      simp only [find_risky_pattern, h]
      exact findHitsGo_ok diff _ hmem

theorem find_risky_pattern_correct_witness :
    find_risky_pattern ⟨"missing.py", ["eval("]⟩ ⟨[("a.py", "+eval(x)")]⟩ =
      .error (.keyError ("diff not found for path: " ++ "missing.py")) ∧
    find_risky_pattern ⟨"a.py", ["eval(", "", "exec("]⟩ ⟨[("a.py", "+eval(x)")]⟩ =
      .error (.valueError "pattern must be non-empty") ∧
    find_risky_pattern ⟨"a.py", ["eval(", "exec("]⟩ ⟨[("a.py", "+eval(x)")]⟩ =
      .ok ["eval("] :=
  ⟨(find_risky_pattern_correct ⟨[("a.py", "+eval(x)")]⟩ ⟨"missing.py", ["eval("]⟩).1 rfl,
   ((find_risky_pattern_correct ⟨[("a.py", "+eval(x)")]⟩
        ⟨"a.py", ["eval(", "", "exec("]⟩).2 "+eval(x)" rfl).1 (by decide),
   (((find_risky_pattern_correct ⟨[("a.py", "+eval(x)")]⟩
        ⟨"a.py", ["eval(", "exec("]⟩).2 "+eval(x)" rfl).2 (by decide)).trans
     (congrArg Except.ok (by decide))⟩

/-- C5 counterexample: on a diff with no added lines (here one context
line and one removed line) the tool returns complexity 0, not the
claimed `1 + (count of branch-like constructs)` — which would be 1,
since `ast.parse` of the empty fragment yields a module with no branch
nodes (the instantiated parser). -/
theorem calc_python_complexity_counterexample :
    calc_python_complexity (fun _ => .ok (.node .other [])) ⟨"a.py"⟩
        ⟨[("a.py", "@@ -1,2 +1,1 @@\n ctx\n-removed")]⟩ = .ok 0 ∧
    countBranchNodes (.node .other []) = 0 ∧
    calc_python_complexity (fun _ => .ok (.node .other [])) ⟨"a.py"⟩
        ⟨[("a.py", "@@ -1,2 +1,1 @@\n ctx\n-removed")]⟩ ≠
      .ok (1 + countBranchNodes (.node .other [])) := by
  have h0 : countBranchNodes (.node .other []) = 0 := by
    simp [countBranchNodes, countBranchNodesList, isBranchKind]
  refine ⟨rfl, h0, ?_⟩
  rw [h0]
  intro h
  have h1 : calc_python_complexity (fun _ => .ok (.node .other [])) ⟨"a.py"⟩
      ⟨[("a.py", "@@ -1,2 +1,1 @@\n ctx\n-removed")]⟩ = .ok 0 := rfl
  rw [h1] at h
  exact absurd (Except.ok.inj h) (by decide)

/-- C5 (amended): on a path present in the diff map,
`calc_python_complexity` scores only the added lines of that path's
diff parsed as a standalone fragment; a parse failure is a fatal
propagated error and a successful parse returns 1 + the branch-node
count — but when the added-line fragment is blank (no added lines, or
only whitespace ones) the score is 0 and no parse occurs; a path
absent from the map is a fatal `KeyError`. -/
theorem calc_python_complexity_amended (pyParse : String → Except String PyAst)
    (ctx : ToolContext) (args : CalcPythonComplexityArgs) :
    (lookupDiff ctx args.path = none →
      calc_python_complexity pyParse args ctx =
        .error (.keyError ("diff not found for path: " ++ args.path))) ∧
    (∀ diff, lookupDiff ctx args.path = some diff →
      (pyStrip (_extract_added_python_lines_from_diff diff) = "" →
        calc_python_complexity pyParse args ctx = .ok 0) ∧
      (pyStrip (_extract_added_python_lines_from_diff diff) ≠ "" →
        (∀ e, pyParse (_extract_added_python_lines_from_diff diff) = .error e →
          calc_python_complexity pyParse args ctx = .error (.syntaxError e)) ∧
        (∀ tree, pyParse (_extract_added_python_lines_from_diff diff) = .ok tree →
          calc_python_complexity pyParse args ctx = .ok (1 + countBranchNodes tree)))) := by
  constructor
  · intro h
    simp only [calc_python_complexity, h]
  · intro diff h
    constructor
    · intro hblank
      simp only [calc_python_complexity, h, if_pos hblank]
    · intro hblank
      constructor
      · intro e he
        simp only [calc_python_complexity, h, if_neg hblank, he]
      · intro tree ht
        simp only [calc_python_complexity, h, if_neg hblank, ht]

theorem calc_python_complexity_amended_witness :
    calc_python_complexity (fun _ => Except.ok (PyAst.node .ifStmt [])) ⟨"a.py"⟩
        ⟨[("a.py", "+if x:\n+    y = 1")]⟩ =
      .ok (1 + countBranchNodes (PyAst.node .ifStmt [])) :=
  ((((calc_python_complexity_amended (fun _ => Except.ok (PyAst.node .ifStmt []))
      ⟨[("a.py", "+if x:\n+    y = 1")]⟩ ⟨"a.py"⟩).2 "+if x:\n+    y = 1" rfl).2
      (by decide)).2 (PyAst.node .ifStmt []) rfl)

/- ===== app/llm/client.py, app/agent/prompt.py, app/agent/runtime.py ===== -/

/-- `ChatMessage` of `app/llm/client.py`. -/
structure ChatMessage where
  role : String
  content : String

/-- `ToolCall` of `app/agent/schemas.py`: the discriminated union over
the three registered tools. -/
inductive ToolCall
  | get_diff_chunk (args : GetDiffChunkArgs)
  | find_risky_pattern (args : FindRiskyPatternArgs)
  | calc_python_complexity (args : CalcPythonComplexityArgs)

/-- `AgentAction` of `app/agent/schemas.py` (the `kind = "action"`
discriminator is the constructor choice below). -/
structure AgentAction where
  call : ToolCall

/-- `AgentStep` of `app/agent/schemas.py`: exactly one of an action or
a final answer. -/
inductive AgentStep
  | action (a : AgentAction)
  | final (answer : String)

/-- `ToolObservation` of `app/agent/runtime.py`: a string or one of
three dictionary shapes. -/
inductive ToolObservation
  | ofString (s : String)
  | ofIntDict (d : List (String × Int))
  | ofListDict (d : List (String × List String))
  | ofStrDict (d : List (String × String))

/-- Python exceptions escaping `run_react_agent`. -/
inductive AgentError
  | inputError (msg : String)
  | jsonError (msg : String)
  | attributeError (msg : String)
  | toolError (msg : String)

/-- `build_react_instructions` of `app/agent/prompt.py`. -/
def build_react_instructions : String :=
  "你是代码审查 Agent。你可以调用工具，但必须遵守：\n" ++
  "- 你每次回复必须是“纯 JSON”\n" ++
  "- 如果要调用工具：\x7b\"kind\":\"action\",\"call\":\x7b\"name\":\"...\",\"args\":\x7b...\x7d\x7d\x7d\n" ++
  "- 如果要结束：\x7b\"kind\":\"final\",\"answer\":\"...\"\x7d\n" ++
  "- 不要输出 markdown，不要输出解释性文字。\n" ++
  "可用工具：get_diff_chunk, find_risky_pattern, calc_python_complexity\n"

/-- `_parse_agent_step` of `app/agent/runtime.py`.  `json.loads` is the
parameter `jsonLoads` (`none` models `JSONDecodeError`).  On every
successfully decoded value the source evaluates
`AgentStep.model_validate(parsed)`; but `AgentStep` there is a
`typing.Annotated` union alias, not a pydantic `BaseModel` — attribute
lookup on the alias forwards to `typing.Union`, which has no
`model_validate` — so this raises `AttributeError` for every decoded
input instead of validating it. -/
def _parse_agent_step {J : Type} (jsonLoads : String → Option J) (raw : String) :
    Except AgentError AgentStep :=
  match jsonLoads raw with
  | none => .error (.jsonError ("Agent output is not valid JSON. Raw: " ++ raw))
  | some _ => .error (.attributeError "model_validate")

/-- The observation turn appended after a tool call: the serialized
tool result wrapped in a one-key object; `json.dumps` is the parameter
`jsonDumps`. -/
def observationContent (jsonDumps : ToolObservation → String)
    (obs : ToolObservation) : String :=
  "\x7b\"observation\": " ++ jsonDumps obs ++ "\x7d"

/-- Observable outcome of one agent run: the returned answer or raised
exception, the number of model calls made, the number of tool
executions, and the final transcript. -/
structure RunTrace where
  result : Except AgentError String
  modelCalls : Nat
  toolExecs : Nat
  messages : List ChatMessage

/-- The `for` loop of `run_react_agent`, one iteration per remaining
budget unit: request a model turn from the transcript, parse it
strictly, return the answer on `Final`, otherwise execute the tool and
append the raw action turn plus one observation turn; when the budget
is exhausted, return the fixed fallback result.  `complete_text` is
the model (a function of the transcript); `tool_executor` is the
injected executor, whose raised exceptions propagate. -/
def reactLoop {J : Type} (jsonLoads : String → Option J)
    (jsonDumps : ToolObservation → String)
    (complete_text : List ChatMessage → String)
    (tool_executor : AgentAction → ToolContext → Except AgentError ToolObservation)
    (tool_ctx : ToolContext) : List ChatMessage → Nat → RunTrace
  | messages, 0 => ⟨.ok "Review incomplete (step limit reached)", 0, 0, messages⟩
  | messages, fuel + 1 =>
    match _parse_agent_step jsonLoads (complete_text messages) with
    | .error e => ⟨.error e, 1, 0, messages⟩
    | .ok (.final answer) => ⟨.ok answer, 1, 0, messages⟩
    | .ok (.action step) =>
      match tool_executor step tool_ctx with
      | .error e => ⟨.error e, 1, 1, messages⟩
      | .ok observation =>
        let t := reactLoop jsonLoads jsonDumps complete_text tool_executor tool_ctx
          (messages ++ [⟨"assistant", complete_text messages⟩,
            ⟨"user", observationContent jsonDumps observation⟩]) fuel
        ⟨t.result, t.modelCalls + 1, t.toolExecs + 1, t.messages⟩

/-- The transcript seeded by `run_react_agent`: system instructions,
then the user prompt. -/
def initReactMessages (user_prompt : String) : List ChatMessage :=
  [⟨"system", build_react_instructions⟩, ⟨"user", user_prompt⟩]

/-- `run_react_agent` of `app/agent/runtime.py`. -/
def run_react_agent {J : Type} (jsonLoads : String → Option J)
    (jsonDumps : ToolObservation → String)
    (complete_text : List ChatMessage → String)
    (tool_executor : AgentAction → ToolContext → Except AgentError ToolObservation)
    (user_prompt : String) (tool_ctx : ToolContext) (max_steps : Int) : RunTrace :=
  if max_steps ≤ 0 then ⟨.error (.inputError "max_steps must be > 0"), 0, 0, []⟩
  else
    reactLoop jsonLoads jsonDumps complete_text tool_executor tool_ctx
      (initReactMessages user_prompt) max_steps.toNat

/-- C4: when a raw model turn is not parseable as exactly one of
`Action`/`Final` (invalid JSON, or a decoded value failing
validation), the run aborts immediately with that fatal error: no tool
executes for that turn, nothing is appended to the transcript, exactly
one model call happens at that turn and none afterwards, with no retry
or repair path.  Stated for an arbitrary loop state, i.e. any
iteration with budget remaining; the run-level conjunct instantiates
it at the seeded transcript. -/
theorem parse_failure_aborts {J : Type} (jsonLoads : String → Option J)
    (jsonDumps : ToolObservation → String)
    (complete_text : List ChatMessage → String)
    (tool_executor : AgentAction → ToolContext → Except AgentError ToolObservation)
    (tool_ctx : ToolContext) (messages : List ChatMessage) (fuel : Nat) (e : AgentError)
    (herr : _parse_agent_step jsonLoads (complete_text messages) = .error e) :
    reactLoop jsonLoads jsonDumps complete_text tool_executor tool_ctx
        messages (fuel + 1) = ⟨.error e, 1, 0, messages⟩ ∧
    (∀ (user_prompt : String) (max_steps : Int) (e' : AgentError),
      0 < max_steps →
      _parse_agent_step jsonLoads (complete_text (initReactMessages user_prompt)) =
        .error e' →
      run_react_agent jsonLoads jsonDumps complete_text tool_executor user_prompt
        tool_ctx max_steps = ⟨.error e', 1, 0, initReactMessages user_prompt⟩) := by
  constructor
  · simp only [reactLoop, herr]
  · intro user_prompt max_steps e' hpos herr'
    unfold run_react_agent
    rw [if_neg (by omega)]
    have hfuel : max_steps.toNat = (max_steps.toNat - 1) + 1 := by omega
    rw [hfuel]
    simp only [reactLoop, herr']

theorem parse_failure_aborts_witness :
    reactLoop (fun _ => (none : Option Unit)) (fun _ => "null") (fun _ => "not json")
        (fun _ _ => .ok (.ofString "")) ⟨[]⟩ [⟨"user", "hi"⟩] (1 + 1) =
      ⟨.error (.jsonError ("Agent output is not valid JSON. Raw: " ++ "not json")),
        1, 0, [⟨"user", "hi"⟩]⟩ ∧
    (∀ (user_prompt : String) (max_steps : Int) (e' : AgentError),
      0 < max_steps →
      _parse_agent_step (fun _ => (none : Option Unit))
          ((fun _ => "not json") (initReactMessages user_prompt)) = .error e' →
      run_react_agent (fun _ => (none : Option Unit)) (fun _ => "null")
        (fun _ => "not json") (fun _ _ => .ok (.ofString "")) user_prompt
        ⟨[]⟩ max_steps = ⟨.error e', 1, 0, initReactMessages user_prompt⟩) :=
  parse_failure_aborts (fun _ => (none : Option Unit)) (fun _ => "null")
    (fun _ => "not json") (fun _ _ => .ok (.ofString "")) ⟨[]⟩ [⟨"user", "hi"⟩] 1
    (.jsonError ("Agent output is not valid JSON. Raw: " ++ "not json")) rfl

/-- C3: demonstration of the code bug at a concrete failing input.
With a step budget of 3 and a model whose first turn is the valid
`Final` JSON turn (so `json.loads` succeeds on it), the loop should,
per the claim, return the final answer `"LGTM"` after exactly one
model call; instead the source's `AgentStep.model_validate` call
raises `AttributeError` (see `_parse_agent_step`) and the run aborts
after one model call with no tool execution.  Only the claim's
fail-fast part holds: a non-positive budget raises the input
`ValueError` before any model call. -/
theorem run_react_agent_model_validate_bug :
    run_react_agent (fun _ => some ()) (fun _ => "null")
        (fun _ => "\x7b\"kind\": \"final\", \"answer\": \"LGTM\"\x7d")
        (fun _ _ => .ok (.ofString "")) "review this diff" ⟨[]⟩ 3 =
      ⟨.error (.attributeError "model_validate"), 1, 0,
        initReactMessages "review this diff"⟩ ∧
    (run_react_agent (fun _ => some ()) (fun _ => "null")
        (fun _ => "\x7b\"kind\": \"final\", \"answer\": \"LGTM\"\x7d")
        (fun _ _ => .ok (.ofString "")) "review this diff" ⟨[]⟩ 3).result ≠
      .ok "LGTM" ∧
    run_react_agent (fun _ => some ()) (fun _ => "null")
        (fun _ => "\x7b\"kind\": \"final\", \"answer\": \"LGTM\"\x7d")
        (fun _ _ => .ok (.ofString "")) "review this diff" ⟨[]⟩ 0 =
      ⟨.error (.inputError "max_steps must be > 0"), 0, 0, []⟩ := by
  refine ⟨rfl, ?_, rfl⟩
  intro h
  exact Except.noConfusion h

/- ===== app/storage/pg.py, app/indexing/file_scanner.py, app/indexing/indexer.py ===== -/

/-- `FileIndexEntry` of `app/storage/models.py`. -/
structure FileIndexEntry where
  repo_id : String
  path : String
  language : String
  checksum : String

/-- The two logical tables of the index store (`file_index` and
`code_chunks` of `app/storage/pg.py`); the embedding column has the
abstract type `E` (its values never influence control flow here). -/
structure Store (E : Type) where
  file_index : List FileIndexEntry
  code_chunks : List (CodeChunk × E)

/-- One `INSERT ... ON CONFLICT (repo_id, path) DO UPDATE` statement of
`upsert_file_index_entries`: update the matching row in place, else
append. -/
def upsertOneEntry {E : Type} (entry : FileIndexEntry) (s : Store E) : Store E :=
  if s.file_index.any (fun r => r.repo_id == entry.repo_id && r.path == entry.path) then
    ⟨s.file_index.map (fun r =>
      if r.repo_id == entry.repo_id && r.path == entry.path then entry else r),
      s.code_chunks⟩
  else ⟨s.file_index ++ [entry], s.code_chunks⟩

/-- `upsert_file_index_entries` of `app/storage/pg.py`: rejects an
empty batch, otherwise upserts the entries in order. -/
def upsert_file_index_entries {E : Type} (entries : List FileIndexEntry)
    (s : Store E) : Except String (Store E) :=
  if entries.isEmpty then .error "entries must not be empty"
  else .ok (entries.foldl (fun st e => upsertOneEntry e st) s)

/-- `replace_code_chunks` of `app/storage/pg.py`: length precondition,
then delete-and-insert for one `(repo_id, path)`. -/
def replace_code_chunks {E : Type} (repo_id path : String) (chunks : List CodeChunk)
    (embeddings : List E) (s : Store E) : Except String (Store E) :=
  if chunks.length ≠ embeddings.length then
    .error "chunks and embeddings length mismatch"
  else
    .ok ⟨s.file_index,
      s.code_chunks.filter (fun q => !(q.1.repo_id == repo_id && q.1.path == path)) ++
        chunks.zip embeddings⟩

/-- `list_indexed_paths` of `app/storage/pg.py`. -/
def list_indexed_paths {E : Type} (s : Store E) (repo_id : String) : List String :=
  (s.file_index.filter (fun r => r.repo_id == repo_id)).map (fun r => r.path)

/-- Left-to-right index of the last occurrence of `c`, if any. -/
def lastIndexOf? (c : Char) (cs : List Char) : Option Nat :=
  ((cs.enum.filter (fun q => q.2 == c)).map Prod.fst).getLast?

/-- `os.path.splitext(p)[1]`: the extension starts at the last dot,
unless every character between the last path separator and that dot is
itself a dot (CPython `genericpath._splitext` with `sep = "/"`). -/
def pySplitExtExt (p : String) : String :=
  match lastIndexOf? '.' p.data with
  | none => ""
  | some dotIndex =>
    match lastIndexOf? '/' p.data with
    | none =>
      if (List.range dotIndex).any (fun j => !(p.data.getD j '.' == '.')) then
        ⟨p.data.drop dotIndex⟩
      else ""
    | some sepIndex =>
      if sepIndex < dotIndex ∧
          ((List.range (dotIndex - (sepIndex + 1))).any
            (fun j => !(p.data.getD (sepIndex + 1 + j) '.' == '.')) = true) then
        ⟨p.data.drop dotIndex⟩
      else ""

/-- The pruned directory names of `scan_repo_files`. -/
def EXCLUDED_DIRS : List String :=
  [".git", "node_modules", ".venv", "dist", "build", "__pycache__"]

/-- `ALLOWED_EXTENSIONS` of `app/indexing/indexer.py`. -/
def ALLOWED_EXTENSIONS : List String :=
  [".py", ".ts", ".tsx", ".js", ".jsx", ".go", ".java", ".rb", ".php", ".rs", ".sql"]

/-- `MAX_FILE_BYTES` of `app/indexing/indexer.py`. -/
def MAX_FILE_BYTES : Nat := 1000000

/-- `EMBED_BATCH_SIZE` of `app/indexing/indexer.py`. -/
def EMBED_BATCH_SIZE : Nat := 32

/-- `scan_repo_files` of `app/indexing/file_scanner.py`, over a
repository directory modelled as a map from repo-relative path to file
text (walk order = list order; `os.path.getsize` = UTF-8 byte count).
`os.walk` prunes the excluded directories, so a file survives when no
directory component of its path is excluded; then the extension
allow-list and the size ceiling apply. -/
def scan_repo_files (fs : List (String × String)) (allowed : List String)
    (max_bytes : Int) : Except String (List String) :=
  if max_bytes ≤ 0 then .error "max_bytes must be > 0"
  else .ok ((fs.filter (fun f =>
    ((splitOnChar '/' f.1).dropLast.all (fun d => !EXCLUDED_DIRS.contains d)) &&
    allowed.contains (pyToLower (pySplitExtExt f.1)) &&
    decide ((f.2.utf8ByteSize : Int) ≤ max_bytes))).map Prod.fst)

/-- Batch loop of `_embed_chunks` with an explicit fuel (one unit per
batch suffices, and each batch consumes at least one element, so fuel
= list length is enough): batches of `EMBED_BATCH_SIZE` texts in
order; the embedding provider returns one vector per input text in
order (spec §6), modelled per-text by `embedOne`. -/
def batchedEmbedGo {E : Type} (embedOne : String → E) : Nat → List String → List E
  | 0, _ => []
  | _, [] => []
  | fuel + 1, x :: xs =>
    ((x :: xs).take EMBED_BATCH_SIZE).map embedOne ++
      batchedEmbedGo embedOne fuel ((x :: xs).drop EMBED_BATCH_SIZE)

/-- `_embed_chunks` of `app/indexing/indexer.py`: rejects an empty
content list, then embeds in order-preserving batches. -/
def _embed_chunks {E : Type} (embedOne : String → E) (chunks : List String) :
    Except String (List E) :=
  if chunks.isEmpty then .error "chunks must not be empty"
  else .ok (batchedEmbedGo embedOne chunks.length chunks)

/-- Per-path loop of `_index_paths` of `app/indexing/indexer.py`:
missing, wrong-extension or oversized files are silently skipped;
otherwise the file is read (counted by `reads`), an entry is
collected, the file is chunked and embedded and its chunks replaced;
embedding and storage errors abort the whole run; at the end the
collected entries, when any, are bulk-upserted. -/
def indexPathsGo {E : Type} (sha : String → String)
    (getParser : String → Option (String → TSNode)) (embedOne : String → E)
    (repo_id : String) (fs : List (String × String)) :
    List String → Store E → Nat → List FileIndexEntry → Except String (Store E × Nat)
  | [], s, reads, entries =>
    if entries.isEmpty then .ok (s, reads)
    else (upsert_file_index_entries entries s).map (fun s2 => (s2, reads))
  | path :: rest, s, reads, entries =>
    match (fs.find? (fun q => q.1 == path)).map Prod.snd with
    | none => indexPathsGo sha getParser embedOne repo_id fs rest s reads entries
    | some content =>
      if !ALLOWED_EXTENSIONS.contains (pyToLower (pySplitExtExt path)) then
        indexPathsGo sha getParser embedOne repo_id fs rest s reads entries
      else if content.utf8ByteSize > MAX_FILE_BYTES then
        indexPathsGo sha getParser embedOne repo_id fs rest s reads entries
      else
        match _embed_chunks embedOne
            ((chunk_file sha getParser repo_id path content).map (fun c => c.content)) with
        | .error e => .error e
        | .ok embeddings =>
          match replace_code_chunks repo_id path
              (chunk_file sha getParser repo_id path content) embeddings s with
          | .error e => .error e
          | .ok s2 =>
            indexPathsGo sha getParser embedOne repo_id fs rest s2 (reads + 1)
              (entries ++ [⟨repo_id, path, infer_language_from_path path, sha content⟩])

/-- `index_repo_full` of `app/indexing/indexer.py`: scan, then index
the scanned paths (the scanner already yields repo-relative paths in
this model, so `os.path.relpath` is the identity). -/
def index_repo_full {E : Type} (sha : String → String)
    (getParser : String → Option (String → TSNode)) (embedOne : String → E)
    (repo_id : String) (fs : List (String × String)) (s : Store E) :
    Except String (Store E × Nat) :=
  match scan_repo_files fs ALLOWED_EXTENSIONS (MAX_FILE_BYTES : Int) with
  | .error e => .error e
  | .ok files => indexPathsGo sha getParser embedOne repo_id fs files s 0 []

/-- `ensure_initial_index` of `app/indexing/indexer.py`: the returned
`Bool` is `True` for the "indexed now" report and `False` for the
"already indexed" one (`orchestrator.py` branches on it); the final
`Nat` counts file reads. -/
def ensure_initial_index {E : Type} (sha : String → String)
    (getParser : String → Option (String → TSNode)) (embedOne : String → E)
    (repo_id : String) (fs : List (String × String)) (s : Store E) :
    Except String (Bool × Store E × Nat) :=
  if list_indexed_paths s repo_id ≠ [] then .ok (false, s, 0)
  else (index_repo_full sha getParser embedOne repo_id fs s).map
    (fun q => (true, q.1, q.2))

theorem upsertOneEntry_pres {E : Type} (entry : FileIndexEntry) (s : Store E)
    (R : String) (h : ∃ r ∈ s.file_index, r.repo_id = R) :
    ∃ r ∈ (upsertOneEntry entry s).file_index, r.repo_id = R := by
  obtain ⟨r0, hmem, hr0⟩ := h
  unfold upsertOneEntry
  by_cases hc : s.file_index.any
      (fun r => r.repo_id == entry.repo_id && r.path == entry.path) = true
  · rw [if_pos hc]
    by_cases hk : (r0.repo_id == entry.repo_id && r0.path == entry.path) = true
    · refine ⟨entry, List.mem_map.mpr ⟨r0, hmem, by rw [if_pos hk]⟩, ?_⟩
      have : r0.repo_id = entry.repo_id := by
        have := (Bool.and_eq_true _ _).mp hk
        exact eq_of_beq this.1
      rw [← this, hr0]
    · refine ⟨r0, List.mem_map.mpr ⟨r0, hmem, by rw [if_neg hk]⟩, hr0⟩
  · rw [if_neg hc]
    exact ⟨r0, List.mem_append_left _ hmem, hr0⟩

theorem upsertOneEntry_adds {E : Type} (entry : FileIndexEntry) (s : Store E) :
    ∃ r ∈ (upsertOneEntry entry s).file_index, r.repo_id = entry.repo_id := by
  unfold upsertOneEntry
  by_cases hc : s.file_index.any
      (fun r => r.repo_id == entry.repo_id && r.path == entry.path) = true
  · rw [if_pos hc]
    obtain ⟨r0, hmem, hk⟩ := List.any_eq_true.mp hc
    exact ⟨entry, List.mem_map.mpr ⟨r0, hmem, by rw [if_pos hk]⟩, rfl⟩
  · rw [if_neg hc]
    exact ⟨entry, List.mem_append_right _ (List.mem_singleton.mpr rfl), rfl⟩

theorem foldl_upsert_pres {E : Type} (entries : List FileIndexEntry) :
    ∀ (s : Store E) (R : String), (∃ r ∈ s.file_index, r.repo_id = R) →
      ∃ r ∈ (entries.foldl (fun st e => upsertOneEntry e st) s).file_index,
        r.repo_id = R := by
  induction entries with
  | nil => intro s R h; exact h
  | cons e rest ih =>
    intro s R h
    simp only [List.foldl_cons]
    exact ih _ R (upsertOneEntry_pres e s R h)

theorem foldl_upsert_first {E : Type} (e : FileIndexEntry)
    (rest : List FileIndexEntry) (s : Store E) :
    ∃ r ∈ ((e :: rest).foldl (fun st x => upsertOneEntry x st) s).file_index,
      r.repo_id = e.repo_id := by
  simp only [List.foldl_cons]
  exact foldl_upsert_pres rest _ _ (upsertOneEntry_adds e s)

theorem indexPathsGo_ok_cases {E : Type} (sha : String → String)
    (getParser : String → Option (String → TSNode)) (embedOne : String → E)
    (repo_id : String) (fs : List (String × String)) (paths : List String) :
    ∀ (s : Store E) (reads : Nat) (entries : List FileIndexEntry),
      (∀ e ∈ entries, e.repo_id = repo_id) →
      ∀ (s2 : Store E) (n : Nat),
        indexPathsGo sha getParser embedOne repo_id fs paths s reads entries =
          .ok (s2, n) →
        (n = reads ∧ entries = [] ∧ s2 = s) ∨
          (∃ r ∈ s2.file_index, r.repo_id = repo_id) := by
  induction paths with
  | nil =>
    intro s reads entries hall s2 n hok
    by_cases he : entries.isEmpty
    · left
      simp only [indexPathsGo, if_pos he] at hok
      obtain ⟨h1, h2⟩ := Prod.mk.injEq .. ▸ Except.ok.inj hok
      exact ⟨h2.symm, List.isEmpty_iff.mp he, h1.symm⟩
    · right
      simp only [indexPathsGo, if_neg he, upsert_file_index_entries, he,
        Bool.false_eq_true, if_neg, Except.map] at hok
      obtain ⟨h1, -⟩ := Prod.mk.injEq .. ▸ Except.ok.inj hok
      cases entries with
      | nil => simp at he
      | cons e rest =>
        rw [← h1]
        exact foldl_upsert_first e rest s |>.imp (fun r hr =>
          ⟨hr.1, by rw [hr.2]; exact hall e (List.mem_cons_self _ _)⟩)
  | cons path rest ih =>
    intro s reads entries hall s2 n hok
    rw [indexPathsGo] at hok
    cases hfind : (fs.find? (fun q => q.1 == path)).map Prod.snd with
    | none =>
      simp only [hfind] at hok
      exact ih s reads entries hall s2 n hok
    | some content =>
      simp only [hfind] at hok
      by_cases hext :
          (!ALLOWED_EXTENSIONS.contains (pyToLower (pySplitExtExt path))) = true
      · rw [if_pos hext] at hok
        exact ih s reads entries hall s2 n hok
      · rw [if_neg hext] at hok
        by_cases hsize : content.utf8ByteSize > MAX_FILE_BYTES
        · rw [if_pos hsize] at hok
          exact ih s reads entries hall s2 n hok
        · rw [if_neg hsize] at hok
          cases hemb : _embed_chunks embedOne
              ((chunk_file sha getParser repo_id path content).map
                (fun c => c.content)) with
          | error e =>
            simp only [hemb] at hok
            exact Except.noConfusion hok
          | ok embeddings =>
            simp only [hemb] at hok
            cases hrep : replace_code_chunks repo_id path
                (chunk_file sha getParser repo_id path content) embeddings s with
            | error e =>
              simp only [hrep] at hok
              exact Except.noConfusion hok
            | ok s3 =>
              simp only [hrep] at hok
              have hall2 : ∀ e ∈ entries ++
                  [⟨repo_id, path, infer_language_from_path path, sha content⟩],
                  e.repo_id = repo_id := by
                intro e he
                cases List.mem_append.mp he with
                | inl hm => exact hall e hm
                | inr hm => rw [List.mem_singleton.mp hm]
              cases ih s3 (reads + 1) _ hall2 s2 n hok with
              | inl habs => exact absurd habs.2.1 (by simp)
              | inr hr => exact Or.inr hr

theorem list_indexed_paths_ne {E : Type} (s : Store E) (R : String)
    (h : ∃ r ∈ s.file_index, r.repo_id = R) : list_indexed_paths s R ≠ [] := by
  obtain ⟨r, hmem, hr⟩ := h
  unfold list_indexed_paths
  intro hnil
  have : r ∈ s.file_index.filter (fun q => q.repo_id == R) :=
    List.mem_filter.mpr ⟨hmem, by simp [hr]⟩
  rw [List.map_eq_nil_iff.mp hnil] at this
  cases this

/-- C8 counterexample: on a repository directory with no eligible files
and an empty store, the first bootstrap call succeeds, reads zero
files, indexes nothing, and reports "indexed now" (`true`); a second
call — the store is unchanged — again reports "indexed now" rather
than the claimed "already indexed" (`false`). -/
theorem ensure_initial_index_counterexample :
    ensure_initial_index (fun _ => "h") (fun _ => none) (fun _ => (0 : Nat)) "r" []
        ⟨[], []⟩ = .ok (true, ⟨[], []⟩, 0) ∧
    ensure_initial_index (fun _ => "h") (fun _ => none) (fun _ => (0 : Nat)) "r" []
        ⟨[], []⟩ ≠ .ok (false, ⟨[], []⟩, 0) := by
  refine ⟨rfl, ?_⟩
  intro h
  have h1 : ensure_initial_index (fun _ => "h") (fun _ => none) (fun _ => (0 : Nat))
      "r" [] (⟨[], []⟩ : Store Nat) = .ok (true, ⟨[], []⟩, 0) := rfl
  rw [h1] at h
  exact Bool.noConfusion (congrArg Prod.fst (Except.ok.inj h))

/-- C8 (amended): the bootstrap is idempotent provided the first
reindex indexed at least one file.  A non-empty indexed-path list
means no indexing work, zero file reads, and the "already indexed"
report; an empty one means exactly one full reindex reported "indexed
now"; and when that reindex read at least one file, an immediately
following call reports "already indexed" with zero additional file
reads.  (With zero eligible files the first call indexes nothing and
the second call reindexes again, as the counterexample shows.) -/
theorem ensure_initial_index_spec {E : Type} (sha : String → String)
    (getParser : String → Option (String → TSNode)) (embedOne : String → E)
    (repo_id : String) (fs : List (String × String)) (s : Store E) :
    (list_indexed_paths s repo_id ≠ [] →
      ensure_initial_index sha getParser embedOne repo_id fs s = .ok (false, s, 0)) ∧
    (list_indexed_paths s repo_id = [] →
      ensure_initial_index sha getParser embedOne repo_id fs s =
        (index_repo_full sha getParser embedOne repo_id fs s).map
          (fun q => (true, q.1, q.2)) ∧
      (∀ (s2 : Store E) (reads : Nat),
        index_repo_full sha getParser embedOne repo_id fs s = .ok (s2, reads) →
        1 ≤ reads →
        ensure_initial_index sha getParser embedOne repo_id fs s =
          .ok (true, s2, reads) ∧
        ensure_initial_index sha getParser embedOne repo_id fs s2 =
          .ok (false, s2, 0))) := by
  constructor
  · intro h
    unfold ensure_initial_index
    rw [if_pos h]
  · intro hemp
    constructor
    · unfold ensure_initial_index
      rw [if_neg (by simp [hemp])]
    · intro s2 reads hfull hreads
      constructor
      · unfold ensure_initial_index
        rw [if_neg (by simp [hemp]), hfull]
        rfl
      · have hne : list_indexed_paths s2 repo_id ≠ [] := by
          apply list_indexed_paths_ne
          unfold index_repo_full at hfull
          cases hscan : scan_repo_files fs ALLOWED_EXTENSIONS (MAX_FILE_BYTES : Int) with
          | error e => rw [hscan] at hfull; exact absurd hfull (by simp)
          | ok files =>
            rw [hscan] at hfull
            cases indexPathsGo_ok_cases sha getParser embedOne repo_id fs files s 0 []
                (by intro e he; cases he) s2 reads hfull with
            | inl habs => omega
            | inr hr => exact hr
        unfold ensure_initial_index
        rw [if_pos hne]

/-- The store produced by bootstrapping the one-file example directory
(used by the witness below). -/
def exampleIndexedStore : Store Nat :=
  ⟨[⟨"r", "a.py", "python", "h"⟩],
    [(⟨"r", "a.py", "__imports__", "module_imports", 1, 1, "import os", "h"⟩, 0),
     (⟨"r", "a.py", "__file__", "file", 1, 1, "import os", "h"⟩, 0)]⟩

theorem ensure_initial_index_spec_witness :
    ensure_initial_index (fun _ => "h") (fun _ => none) (fun _ => (0 : Nat)) "r"
        [("a.py", "import os")] ⟨[], []⟩ = .ok (true, exampleIndexedStore, 1) ∧
    ensure_initial_index (fun _ => "h") (fun _ => none) (fun _ => (0 : Nat)) "r"
        [("a.py", "import os")] exampleIndexedStore = .ok (false, exampleIndexedStore, 0) :=
  ((ensure_initial_index_spec (fun _ => "h") (fun _ => none) (fun _ => (0 : Nat)) "r"
      [("a.py", "import os")] ⟨[], []⟩).2 rfl).2 exampleIndexedStore 1 rfl (by omega)
